import Mathlib

/- Shallow embedding of the grid / simulation / note-emission core of
   `src/main.rs` (a nannou application driving a 32×32 cell grid through
   Mover / Rain / Life simulation rules and turning alive∧marked cell
   "collisions" into OSC note-on / note-off messages).

   Modelling conventions:
   * `isize` coordinates and indices become `Int`; Rust's truncating `%` and
     `/` on `isize` become `Int.tmod` / `Int.tdiv`; `usize` list positions
     become `Nat` (`Int.toNat` models `as usize` at the in-bounds call sites).
   * The `rect : Rect` geometry field of `Cell` (pixel layout, `f32`) is an
     opaque passthrough never read by the simulation or note logic; it is
     omitted from the model.
   * OSC transport: `model.sender.send(...)` is fire-and-forget; the model
     collects the sent messages in a list instead.  The single `f32` literal
     `1.0` used as velocity is modelled as the rational `1`.
   * Randomness (`random_range`, `SliceRandom::choose`) is modelled by
     passing the drawn value (or a draw index `k`) as an explicit argument.
-/

/-- Grid side length, `const SIZE: isize = 32`. -/
def SIZE : Int := 32

/-- Fixed OSC channel, `const CHANNEL: i32 = 0`. -/
def CHANNEL : Int := 0

/-- Liveness state of a cell, `enum CellState { Enabled, Disabled }`. -/
inductive CellState where
  | Enabled
  | Disabled
  deriving DecidableEq

/-- One grid cell, `struct Cell` (the `rect` geometry field is omitted, see
the header comment). -/
structure Cell where
  state : CellState
  marked : Bool
  active : Bool
  deriving DecidableEq

/-- Source `fn index_to_pos(i: isize) -> (isize, isize)`:
`(i % SIZE, i / SIZE)` with Rust's truncating division. -/
def index_to_pos (i : Int) : Int × Int :=
  (i.tmod SIZE, i.tdiv SIZE)

/-- Source `fn pos_to_index((x, y)) -> isize`: `y * SIZE + x`. -/
def pos_to_index (p : Int × Int) : Int :=
  p.2 * SIZE + p.1

/-- Source `fn get_cell(rects, x, y) -> Option<Cell>`: `None` when
`x < 0 || y < 0` or `x >= SIZE || y >= SIZE`, else the cell at the flat
index.  (The source indexes `rects[index]` unchecked there; every caller
passes a grid of length SIZE², for which the lookup always succeeds.) -/
def get_cell (rects : List Cell) (x y : Int) : Option Cell :=
  if x < 0 ∨ y < 0 then none
  else if x ≥ SIZE ∨ y ≥ SIZE then none
  else rects[(pos_to_index (x, y)).toNat]?

/-- Source `fn _is_alive(cell: &Option<Cell>) -> bool`. -/
def _is_alive (cell : Option Cell) : Bool :=
  match cell with
  | some c =>
      match c.state with
      | CellState.Enabled => true
      | CellState.Disabled => false
  | none => false

/-- Source `fn get_neighbours_cells`: the 8 Moore neighbours in the fixed
order top-left, top, top-right, left, right, bottom-left, bottom,
bottom-right. -/
def get_neighbours_cells (rects : List Cell) (x y : Int) : List (Option Cell) :=
  [get_cell rects (x - 1) (y - 1), get_cell rects x (y - 1), get_cell rects (x + 1) (y - 1),
   get_cell rects (x - 1) y, get_cell rects (x + 1) y,
   get_cell rects (x - 1) (y + 1), get_cell rects x (y + 1), get_cell rects (x + 1) (y + 1)]

/-- Source `fn set_cell_params`: patch-update of the cell at `(x, y)`; a
`None` field keeps the old value.  The source reads `rects[index]` unchecked
(panicking out of bounds); all its call sites stay in bounds, and the model
leaves the grid unchanged on the unreachable out-of-bounds branch. -/
def set_cell_params (rects : List Cell) (x y : Int)
    (state : Option CellState) (marked : Option Bool) (active : Option Bool) :
    List Cell :=
  let index := (pos_to_index (x, y)).toNat
  match rects[index]? with
  | none => rects
  | some cell =>
      rects.set index
        { state := match state with | some s => s | none => cell.state
          marked := match marked with | some m => m | none => cell.marked
          active := match active with | some a => a | none => cell.active }

/-- Default cell contents used by `init_recs` when there is no old cell:
`state: Disabled, marked: false, active: false`. -/
def default_cell : Cell :=
  { state := CellState.Disabled, marked := false, active := false }

/-- Source `fn init_recs(window_rect, old_field)`: builds the SIZE² grid; for
each position it carries over the old cell (`Cell { rect, ..c }` — all
non-geometry fields copied) when the old field has one, else the default
cell.  Geometry is omitted from the model. -/
def init_recs (old_field : Option (List Cell)) : List Cell :=
  (List.range (SIZE * SIZE).toNat).map (fun (i : Nat) =>
    let p := index_to_pos (i : Int)
    match old_field.bind (fun o => get_cell o p.1 p.2) with
    | some c => c
    | none => default_cell)

/-- Recursion for `get_enabled_cells_indexes` carrying the enumeration
counter (source: `iter().enumerate().filter(alive).map(i as isize)`). -/
def get_enabled_go (n : Nat) (rects : List Cell) : List Int :=
  match rects with
  | [] => []
  | c :: rest =>
      if _is_alive (some c) then (n : Int) :: get_enabled_go (n + 1) rest
      else get_enabled_go (n + 1) rest

/-- Source `fn get_enabled_cells_indexes(rects) -> Vec<isize>`. -/
def get_enabled_cells_indexes (rects : List Cell) : List Int :=
  get_enabled_go 0 rects

/-- Source `fn clear_field`: for every currently-enabled index, set that
cell's `state` to `Disabled` (other fields untouched). -/
def clear_field (rects : List Cell) : List Cell :=
  (get_enabled_cells_indexes rects).foldl
    (fun r index =>
      match r[index.toNat]? with
      | some c => r.set index.toNat { c with state := CellState.Disabled }
      | none => r)
    rects

/-- Source `fn get_prev_pos`: `(0,0)` for `frame < 1`, else
`index_to_pos((frame - 1) % (SIZE * SIZE))`. -/
def get_prev_pos (frame : Int) : Int × Int :=
  if frame < 1 then (0, 0) else index_to_pos ((frame - 1).tmod (SIZE * SIZE))

/-- Source `fn get_next_pos`: `index_to_pos(frame % (SIZE * SIZE))`. -/
def get_next_pos (frame : Int) : Int × Int :=
  index_to_pos (frame.tmod (SIZE * SIZE))

/-- Per-tick body of source `fn mover` after the one-time seeding: no-op when
previous and next positions coincide, else disable the previous cell and
enable the next one. -/
def mover_step (frame : Int) (field : List Cell) : List Cell :=
  let p := get_prev_pos frame
  let q := get_next_pos frame
  if p = q then field
  else
    set_cell_params
      (set_cell_params field p.1 p.2 (some CellState.Disabled) none none)
      q.1 q.2 (some CellState.Enabled) none none

/-- One-time seed of `fn mover`: enable cell `(0, 0)`. -/
def mover_seed (field : List Cell) : List Cell :=
  set_cell_params field 0 0 (some CellState.Enabled) none none

/-- Per-tick body of source `fn rain` after the one-time seeding.  `randX`
models the value drawn by `random_range(0, SIZE)` this tick: collect the
enabled indices, clear the field, spawn a drop at `(randX, 0)` when fewer
than `SIZE * 2` cells were enabled, then re-enable every previous drop one
row lower, discarding drops whose `y + 1` leaves the grid. -/
def rain_step (randX : Int) (field : List Cell) : List Cell :=
  let enabled_indexes := get_enabled_cells_indexes field
  let cleared := clear_field field
  let spawned :=
    if enabled_indexes.length < (SIZE * 2).toNat then
      set_cell_params cleared randX 0 (some CellState.Enabled) none none
    else cleared
  enabled_indexes.foldl
    (fun r index =>
      let p := index_to_pos index
      if p.2 + 1 < SIZE then
        set_cell_params r p.1 (p.2 + 1) (some CellState.Enabled) none none
      else r)
    spawned

/-- Body of the per-cell `for x / for y` update inside source `fn life`:
reads the snapshot `field`, writes (at most) the cell `(x, y)` of the
next-tick grid `nf`. -/
def life_rule_update (field nf : List Cell) (x y : Int) : List Cell :=
  let is_alive := _is_alive (get_cell field x y)
  let alive_neighbours := (get_neighbours_cells field x y).countP _is_alive
  if is_alive then
    match alive_neighbours with
    | 1 => set_cell_params nf x y (some CellState.Disabled) none none
    | 2 => set_cell_params nf x y (some CellState.Enabled) none none
    | 3 => set_cell_params nf x y (some CellState.Enabled) none none
    | _ => set_cell_params nf x y (some CellState.Disabled) none none
  else if alive_neighbours = 3 then
    set_cell_params nf x y (some CellState.Enabled) none none
  else nf

/-- Per-tick body of source `fn life` after the one-time seeding: start from
a fresh copy of the current grid (`init_recs(.., Some(&model.field))`) and
run the rule for every `x` in `0..SIZE`, `y` in `0..SIZE`, always counting
neighbours in the tick-start snapshot. -/
def life (field : List Cell) : List Cell :=
  (List.range SIZE.toNat).foldl
    (fun nf (x : Nat) =>
      (List.range SIZE.toNat).foldl
        (fun nf2 (y : Nat) => life_rule_update field nf2 (x : Int) (y : Int)) nf)
    (init_recs (some field))

/-- One OSC argument: `nannou_osc::Type::Int` or `Type::Float`; the only
float the program ever sends is the literal `1.0`, modelled as `(1 : ℚ)`. -/
inductive OscArg where
  | int : Int → OscArg
  | float : Rat → OscArg
  deriving DecidableEq

/-- An OSC message: address string plus argument list. -/
abbrev OscMessage := String × List OscArg

/-- Source `fn _note_by_cell_index(index) -> i32`: with `(x, y)` the cell's
position, the note is `(x + y).checked_rem(128)`; the divisor 128 is nonzero
so `checked_rem` is always `Some` and the `.or(Some(0))` fallback is dead. -/
def _note_by_cell_index (index : Nat) : Int :=
  let p := index_to_pos (index : Int)
  (p.1 + p.2).tmod 128

/-- The note-on message sent for a cell index: address `/midi/noteOn`, args
`[Int(CHANNEL), Int(note), Float(1.0)]`. -/
def noteOn_msg (index : Nat) : OscMessage :=
  ("/midi/noteOn", [OscArg.int CHANNEL, OscArg.int (_note_by_cell_index index), OscArg.float 1])

/-- The note-off message sent for a cell index: address `/midi/noteOff`,
args `[Int(CHANNEL), Int(note), Float(1.0)]` — the source builds the same
three-argument vector as for note-on. -/
def noteOff_msg (index : Nat) : OscMessage :=
  ("/midi/noteOff", [OscArg.int CHANNEL, OscArg.int (_note_by_cell_index index), OscArg.float 1])

/-- Shared body of the four `_note_with_*_index` functions (the source
repeats this block verbatim in each): look up the selected cell, do nothing
if it is already `active`, otherwise set `active = true` and send one
note-on.  Returns the updated field plus the sent messages. -/
def _note_on_at (field : List Cell) (index : Nat) : List Cell × List OscMessage :=
  match field[index]? with
  | none => (field, [])
  | some cell =>
      if cell.active then (field, [])
      else (field.set index { cell with active := true }, [noteOn_msg index])

/-- Source `fn _note_with_min_index`: selects `indices.iter().min()`. -/
def _note_with_min_index (indices : List Nat) (field : List Cell) :
    List Cell × List OscMessage :=
  match indices.min? with
  | some index => _note_on_at field index
  | none => (field, [])

/-- Source `fn _note_with_max_index`: selects `indices.iter().max()`. -/
def _note_with_max_index (indices : List Nat) (field : List Cell) :
    List Cell × List OscMessage :=
  match indices.max? with
  | some index => _note_on_at field index
  | none => (field, [])

/-- Source `fn _note_with_avg_index`: returns early on an empty list, else
selects `sum / len` (truncating `usize` division). -/
def _note_with_avg_index (indices : List Nat) (field : List Cell) :
    List Cell × List OscMessage :=
  if indices.isEmpty then (field, [])
  else _note_on_at field (indices.sum / indices.length)

/-- Model of `SliceRandom::choose(&mut rng)`: `None` on an empty slice, else
some element; the random draw is modelled by the explicit index `k`, reduced
modulo the length. -/
def _choose (k : Nat) (l : List Nat) : Option Nat :=
  if l.isEmpty then none else l[k % l.length]?

/-- Source `fn _note_with_random_index`: selects `indices.choose(&mut rng)`
(uniform choice, modelled by the draw argument `k`). -/
def _note_with_random_index (k : Nat) (indices : List Nat) (field : List Cell) :
    List Cell × List OscMessage :=
  match _choose k indices with
  | some index => _note_on_at field index
  | none => (field, [])

/-- Note-selection policy, `enum NotePolicy { Min, Max, Avg, Random }`. -/
inductive NotePolicy where
  | Min
  | Max
  | Avg
  | Random
  deriving DecidableEq

/-- The index each policy's `_note_with_*_index` function selects (the value
bound to `index` in the source before the active-flag test); `none` when no
selection is made. -/
def _selected_index (policy : NotePolicy) (indices : List Nat) (k : Nat) : Option Nat :=
  match policy with
  | NotePolicy.Min => indices.min?
  | NotePolicy.Max => indices.max?
  | NotePolicy.Avg => if indices.isEmpty then none else some (indices.sum / indices.length)
  | NotePolicy.Random => _choose k indices

/-- Recursion for `get_collisions` carrying the enumeration counter. -/
def get_collisions_go (n : Nat) (rects : List Cell) : List (Option (Nat × Cell)) :=
  match rects with
  | [] => []
  | c :: rest =>
      (if c.state = CellState.Enabled ∧ c.marked = true then some (n, c) else none)
        :: get_collisions_go (n + 1) rest

/-- Source `fn get_collisions(rects) -> Vec<Option<(usize, Cell)>>`: one
entry per cell, `Some((i, cell))` exactly for cells that are
`Enabled && marked`. -/
def get_collisions (rects : List Cell) : List (Option (Nat × Cell)) :=
  get_collisions_go 0 rects

/-- The index list the source `fn emit` builds from `get_collisions` (the
`for e in collisions { if let Some((i, _)) = *e { indices.push(i) } }`
loop). -/
def collision_indices (rects : List Cell) : List Nat :=
  (get_collisions rects).filterMap (fun e => e.map (fun p => p.1))

/-- The policy dispatch inside source `fn emit` (`match model.note_policy`). -/
def note_fn (policy : NotePolicy) (indices : List Nat) (k : Nat) (field : List Cell) :
    List Cell × List OscMessage :=
  match policy with
  | NotePolicy.Min => _note_with_min_index indices field
  | NotePolicy.Max => _note_with_max_index indices field
  | NotePolicy.Avg => _note_with_avg_index indices field
  | NotePolicy.Random => _note_with_random_index k indices field

/-- Source `fn emit(model)`: collect the collision indices, then run the
selected policy. -/
def emit (policy : NotePolicy) (k : Nat) (field : List Cell) :
    List Cell × List OscMessage :=
  note_fn policy (collision_indices field) k field

/-- Recursion for `stop` carrying the enumeration counter: clear `active` on
every active cell and send one note-off for it, in index order. -/
def stop_go (n : Nat) (rects : List Cell) : List Cell × List OscMessage :=
  match rects with
  | [] => ([], [])
  | c :: rest =>
      let r := stop_go (n + 1) rest
      if c.active then ({ c with active := false } :: r.1, noteOff_msg n :: r.2)
      else (c :: r.1, r.2)

/-- Source `fn stop(model)`. -/
def stop (field : List Cell) : List Cell × List OscMessage :=
  stop_go 0 field

/-- The OSC cadence inside source `fn update`: with
`frac = app.elapsed_frames() % 10`, run `emit` at 0, `stop` at 9, nothing
otherwise. -/
def update_osc (frames : Nat) (policy : NotePolicy) (k : Nat) (field : List Cell) :
    List Cell × List OscMessage :=
  match frames % 10 with
  | 0 => emit policy k field
  | 9 => stop field
  | _ => (field, [])

/-- Simulation selector, `enum Simulation { Mover, Rain, Life }`. -/
inductive Simulation where
  | Mover
  | Rain
  | Life
  deriving DecidableEq

/-- The static `SIMULATIONS` list backing the UI drop-down. -/
def SIMULATIONS : List Simulation :=
  [Simulation.Mover, Simulation.Rain, Simulation.Life]

/-- The `Model` fields touched by the control-surface handlers (window and
transport handles omitted). -/
structure SessionState where
  field : List Cell
  initialized : Bool
  simulation : Simulation
  note_policy : NotePolicy

/-- The simulation drop-down handler inside source `fn ui_event`: its entire
body is `model.simulation = SIMULATIONS[event]` (the widget only produces
valid indices; the model keeps the old value on the unreachable
out-of-range branch). -/
def select_simulation (s : SessionState) (event : Nat) : SessionState :=
  { s with simulation := (SIMULATIONS[event]?).getD s.simulation }

/-- The Restart button handler inside source `fn ui_event`:
`model.initialized = false`. -/
def restart_click (s : SessionState) : SessionState :=
  { s with initialized := false }

/-- Observation: is the cell at flat index `i` alive? -/
def aliveAt (field : List Cell) (i : Nat) : Bool :=
  _is_alive field[i]?

/-- Observation: number of alive cells in the grid. -/
def aliveCount (field : List Cell) : Nat :=
  field.countP (fun c => _is_alive (some c))

/-- The flat index the mover leaves (the source's `get_prev_pos`, as an
index): 0 for `t < 1`, else `(t - 1) % SIZE²`. -/
def mover_prev_index (t : Int) : Int :=
  if t < 1 then 0 else (t - 1).tmod (SIZE * SIZE)

/-- Test-grid builder: the SIZE² grid whose cell at flat index `i` is
`f i`. -/
def mkGrid (f : Nat → Cell) : List Cell :=
  (List.range (SIZE * SIZE).toNat).map f

/-- Recursion listing the indices of active cells in order. -/
def active_go (n : Nat) (rects : List Cell) : List Nat :=
  match rects with
  | [] => []
  | c :: rest =>
      if c.active then n :: active_go (n + 1) rest else active_go (n + 1) rest

/-- Observation: indices of the active cells, ascending. -/
def active_indices (rects : List Cell) : List Nat :=
  active_go 0 rects

/- ------------------------------------------------------------------ -/
/- Helper lemmas                                                      -/
/- ------------------------------------------------------------------ -/

/-- The merged cell value produced by `set_cell_params`. -/
def merge_cell (c : Cell) (s : Option CellState) (m : Option Bool) (a : Option Bool) : Cell :=
  { state := s.getD c.state, marked := m.getD c.marked, active := a.getD c.active }

theorem size_sq_toNat : (SIZE * SIZE).toNat = 1024 := rfl

theorem pos_to_index_toNat (x y : Nat) :
    (pos_to_index ((x : Int), (y : Int))).toNat = y * 32 + x := rfl

theorem set_cell_params_eq_match (rects : List Cell) (x y : Int)
    (s : Option CellState) (m : Option Bool) (a : Option Bool) :
    set_cell_params rects x y s m a =
      match rects[(pos_to_index (x, y)).toNat]? with
      | none => rects
      | some cell => rects.set (pos_to_index (x, y)).toNat (merge_cell cell s m a) := by
  unfold set_cell_params merge_cell
  cases s <;> cases m <;> cases a <;> rfl

theorem set_cell_params_getElem? (rects : List Cell) (x y : Int)
    (s : Option CellState) (m : Option Bool) (a : Option Bool) (i : Nat) :
    (set_cell_params rects x y s m a)[i]? =
      if i = (pos_to_index (x, y)).toNat then
        (rects[i]?).map (fun c => merge_cell c s m a)
      else rects[i]? := by
  rw [set_cell_params_eq_match]
  cases hc : rects[(pos_to_index (x, y)).toNat]? with
  | none =>
      by_cases h : i = (pos_to_index (x, y)).toNat
      · subst h
        simp [hc]
      · simp [h]
  | some cell =>
      have hlt : (pos_to_index (x, y)).toNat < rects.length := by
        rcases List.getElem?_eq_some.mp hc with ⟨hl, _⟩
        exact hl
      simp only
      rw [List.getElem?_set]
      by_cases h : i = (pos_to_index (x, y)).toNat
      · subst h
        simp [hlt, hc]
      · rw [if_neg (fun hh => h hh.symm), if_neg h]

theorem set_cell_params_length (rects : List Cell) (x y : Int)
    (s : Option CellState) (m : Option Bool) (a : Option Bool) :
    (set_cell_params rects x y s m a).length = rects.length := by
  rw [set_cell_params_eq_match]
  cases rects[(pos_to_index (x, y)).toNat]? with
  | none => rfl
  | some cell => simp

/-- C2 helper: a concrete all-default grid of the invariant length. -/
def gridD : List Cell := mkGrid (fun _ => default_cell)

theorem gridD_length : gridD.length = (SIZE * SIZE).toNat := by
  simp [gridD, mkGrid]

/-- C2: on a grid of length SIZE², `get_cell` returns the cell at flat index
`y·SIZE + x` (a `some`) whenever `0 ≤ x < SIZE` and `0 ≤ y < SIZE`, and
returns `none` for every other coordinate pair, including negative ones. -/
theorem get_cell_spec (rects : List Cell) (h : rects.length = (SIZE * SIZE).toNat) (x y : Int) :
    (0 ≤ x ∧ x < SIZE ∧ 0 ≤ y ∧ y < SIZE →
      get_cell rects x y = rects[(y * SIZE + x).toNat]? ∧
      ∃ c, get_cell rects x y = some c) ∧
    (¬(0 ≤ x ∧ x < SIZE ∧ 0 ≤ y ∧ y < SIZE) → get_cell rects x y = none) := by
  rw [size_sq_toNat] at h
  constructor
  · rintro ⟨hx0, hx, hy0, hy⟩
    have hb1 : ¬(x < 0 ∨ y < 0) := by omega
    have hb2 : ¬(x ≥ SIZE ∨ y ≥ SIZE) := by
      simp only [SIZE] at hx hy ⊢
      omega
    have hidx : (pos_to_index (x, y)).toNat < rects.length := by
      simp only [pos_to_index, SIZE] at *
      omega
    refine ⟨?_, ?_⟩
    · simp [get_cell, hb1, hb2, pos_to_index]
    · refine ⟨rects[(pos_to_index (x, y)).toNat], ?_⟩
      simp only [get_cell, if_neg hb1, if_neg hb2]
      exact List.getElem?_eq_getElem hidx
  · intro hout
    by_cases hb1 : x < 0 ∨ y < 0
    · simp [get_cell, hb1]
    · have hb2 : x ≥ SIZE ∨ y ≥ SIZE := by
        simp only [SIZE] at *
        omega
      simp [get_cell, hb1, hb2]

/-- C2 witness: at the concrete grid `gridD` and the out-of-bounds pair
`(-3, 7)`, `get_cell` returns `none`. -/
theorem get_cell_spec_witness : get_cell gridD (-3) 7 = none :=
  (get_cell_spec gridD gridD_length (-3) 7).2 (by decide)

theorem get_cell_in_bounds (rects : List Cell) (x y : Int)
    (hx0 : 0 ≤ x) (hx : x < SIZE) (hy0 : 0 ≤ y) (hy : y < SIZE) :
    get_cell rects x y = rects[(pos_to_index (x, y)).toNat]? := by
  simp only [SIZE] at hx hy
  have h1 : ¬(x < 0 ∨ y < 0) := by omega
  have h2 : ¬(x ≥ SIZE ∨ y ≥ SIZE) := by
    simp only [SIZE]
    omega
  simp [get_cell, h1, h2]

theorem _is_alive_false_state {c : Cell} (h : _is_alive (some c) = false) :
    c.state = CellState.Disabled := by
  cases hc : c.state
  · simp [_is_alive, hc] at h
  · rfl

/-- The state the life rule assigns to cell `(x, y)` of the next grid, read
off from the branches of the `for x / for y` loop body in `fn life`. -/
def life_next_state (field : List Cell) (x y : Int) : CellState :=
  let n := (get_neighbours_cells field x y).countP _is_alive
  if _is_alive (get_cell field x y) = true then
    (if n = 2 ∨ n = 3 then CellState.Enabled else CellState.Disabled)
  else (if n = 3 then CellState.Enabled else CellState.Disabled)

theorem life_rule_update_eq (field nf : List Cell) (x y : Int) :
    life_rule_update field nf x y =
      if _is_alive (get_cell field x y) = true ∨
          (get_neighbours_cells field x y).countP _is_alive = 3 then
        set_cell_params nf x y (some (life_next_state field x y)) none none
      else nf := by
  simp only [life_rule_update, life_next_state]
  generalize (get_neighbours_cells field x y).countP _is_alive = n
  by_cases hal : _is_alive (get_cell field x y) = true
  · simp only [hal, if_true, true_or]
    by_cases h1 : n = 1
    · subst h1
      norm_num
    · by_cases h2 : n = 2
      · subst h2
        norm_num
      · by_cases h3 : n = 3
        · subst h3
          norm_num
        · by_cases h0 : n = 0
          · subst h0
            norm_num
          · obtain ⟨m, rfl⟩ : ∃ m, n = m + 4 := ⟨n - 4, by omega⟩
            rw [if_neg (by omega : ¬(m + 4 = 2 ∨ m + 4 = 3))]
            rfl
  · simp only [Bool.not_eq_true] at hal
    simp only [hal, Bool.false_eq_true, if_false, false_or]
    by_cases h3 : n = 3
    · subst h3
      norm_num
    · rw [if_neg h3, if_neg h3]

theorem merge_cell_state (c : Cell) (v : CellState) :
    merge_cell c (some v) none none = { c with state := v } := rfl

theorem life_rule_update_getElem?_ne (field nf : List Cell) (x y : Int) (i : Nat)
    (h : i ≠ (pos_to_index (x, y)).toNat) :
    (life_rule_update field nf x y)[i]? = nf[i]? := by
  rw [life_rule_update_eq]
  split
  · rw [set_cell_params_getElem?, if_neg h]
  · rfl

theorem life_rule_update_getElem?_self (field nf : List Cell) (hlen : field.length = 1024)
    (x b : Nat) (hx : x < 32) (hb : b < 32)
    (hnf : nf[b * 32 + x]? = field[b * 32 + x]?) :
    (life_rule_update field nf (x : Int) (b : Int))[b * 32 + x]? =
      (field[b * 32 + x]?).map
        (fun c => { c with state := life_next_state field (x : Int) (b : Int) }) := by
  have hidx : (pos_to_index ((x : Int), (b : Int))).toNat = b * 32 + x := pos_to_index_toNat x b
  have hlt : b * 32 + x < field.length := by omega
  obtain ⟨c, hc⟩ : ∃ c, field[b * 32 + x]? = some c := ⟨_, List.getElem?_eq_getElem hlt⟩
  have hgc : get_cell field (x : Int) (b : Int) = some c := by
    rw [get_cell_in_bounds _ _ _ (by omega) (by simp only [SIZE]; omega)
          (by omega) (by simp only [SIZE]; omega), hidx, hc]
  rw [life_rule_update_eq]
  split
  · rw [set_cell_params_getElem?, if_pos hidx.symm, hnf, hc]
    simp [merge_cell_state]
  · rename_i hcond
    push_neg at hcond
    obtain ⟨hal, hn3⟩ := hcond
    have hal0 : _is_alive (get_cell field (x : Int) (b : Int)) = false := by
      cases hv : _is_alive (get_cell field (x : Int) (b : Int))
      · rfl
      · exact absurd hv hal
    have hcs : c.state = CellState.Disabled := by
      apply _is_alive_false_state
      rw [← hgc]
      exact hal0
    have hlns : life_next_state field (x : Int) (b : Int) = CellState.Disabled := by
      unfold life_next_state
      rw [hal0]
      simp only [Bool.false_eq_true, if_false]
      rw [if_neg hn3]
    rw [hnf, hc, hlns]
    obtain ⟨st, mk, ac⟩ := c
    cases hcs
    rfl

theorem init_recs_length (old_field : Option (List Cell)) :
    (init_recs old_field).length = 1024 := by
  unfold init_recs
  rw [List.length_map, List.length_range, size_sq_toNat]

theorem init_recs_getElem? (field : List Cell) (hlen : field.length = 1024) (i : Nat) :
    (init_recs (some field))[i]? = field[i]? := by
  by_cases hi : i < 1024
  · obtain ⟨c, hc⟩ : ∃ c, field[i]? = some c := ⟨_, List.getElem?_eq_getElem (by omega)⟩
    have hp : index_to_pos (i : Int) = (((i % 32 : Nat) : Int), ((i / 32 : Nat) : Int)) := rfl
    have hg : get_cell field ((i % 32 : Nat) : Int) ((i / 32 : Nat) : Int) = some c := by
      rw [get_cell_in_bounds _ _ _ (by omega) (by simp only [SIZE]; omega)
            (by omega) (by simp only [SIZE]; omega), pos_to_index_toNat]
      have hii : i / 32 * 32 + i % 32 = i := by omega
      rw [hii, hc]
    have hval : (match get_cell field ((i % 32 : Nat) : Int) ((i / 32 : Nat) : Int) with
        | some cc => cc
        | none => default_cell) = c := by rw [hg]
    unfold init_recs
    rw [size_sq_toNat, List.getElem?_map, List.getElem?_range hi]
    show some (match get_cell field ((i % 32 : Nat) : Int) ((i / 32 : Nat) : Int) with
        | some cc => cc
        | none => default_cell) = field[i]?
    rw [hval, hc]
  · have h1 := init_recs_length (some field)
    rw [List.getElem?_eq_none (by omega), List.getElem?_eq_none (by omega)]

theorem life_inner_preserve (field : List Cell) (x : Nat) (ys : List Nat)
    (nf : List Cell) (i : Nat)
    (h : ∀ y ∈ ys, (pos_to_index ((x : Int), (y : Int))).toNat ≠ i) :
    (ys.foldl (fun nf2 (y : Nat) => life_rule_update field nf2 (x : Int) (y : Int)) nf)[i]? = nf[i]? := by
  induction ys generalizing nf with
  | nil => rfl
  | cons y ys ih =>
      rw [List.foldl_cons, ih _ (fun z hz => h z (List.mem_cons_of_mem _ hz))]
      exact life_rule_update_getElem?_ne field nf _ _ i
        (Ne.symm (h y (List.mem_cons_self y ys)))

theorem life_inner_hit (field : List Cell) (hlen : field.length = 1024) (x b : Nat)
    (hx : x < 32) (hb : b < 32) (ys : List Nat) (hnd : ys.Nodup)
    (hys : ∀ y ∈ ys, y < 32) (hmem : b ∈ ys) (nf : List Cell)
    (hnf : nf[b * 32 + x]? = field[b * 32 + x]?) :
    (ys.foldl (fun nf2 (y : Nat) => life_rule_update field nf2 (x : Int) (y : Int)) nf)[b * 32 + x]? =
      (field[b * 32 + x]?).map
        (fun c => { c with state := life_next_state field (x : Int) (b : Int) }) := by
  induction ys generalizing nf with
  | nil => cases hmem
  | cons y ys ih =>
      rw [List.foldl_cons]
      by_cases hyb : y = b
      · subst hyb
        rw [life_inner_preserve field x ys _ _ (fun z hz => by
          have hzy : z ≠ y := fun hzz => (List.nodup_cons.mp hnd).1 (hzz ▸ hz)
          have hz32 : z < 32 := hys z (List.mem_cons_of_mem _ hz)
          rw [pos_to_index_toNat]
          omega)]
        exact life_rule_update_getElem?_self field nf hlen x y hx
          (hys y (List.mem_cons_self y ys)) hnf
      · have hmem' : b ∈ ys := by
          cases List.mem_cons.mp hmem with
          | inl h => exact absurd h.symm hyb
          | inr h => exact h
        have hy32 : y < 32 := hys y (List.mem_cons_self y ys)
        have hne : b * 32 + x ≠ (pos_to_index ((x : Int), (y : Int))).toNat := by
          rw [pos_to_index_toNat]
          omega
        exact ih (List.nodup_cons.mp hnd).2 (fun z hz => hys z (List.mem_cons_of_mem _ hz))
          hmem' _ (by rw [life_rule_update_getElem?_ne field nf _ _ _ hne, hnf])

theorem life_outer_preserve (field : List Cell) (xs : List Nat) (nf : List Cell) (i : Nat)
    (h : ∀ x ∈ xs, ∀ y ∈ List.range SIZE.toNat, (pos_to_index ((x : Int), (y : Int))).toNat ≠ i) :
    (xs.foldl (fun nf (x : Nat) => (List.range SIZE.toNat).foldl
        (fun nf2 (y : Nat) => life_rule_update field nf2 (x : Int) (y : Int)) nf) nf)[i]? = nf[i]? := by
  induction xs generalizing nf with
  | nil => rfl
  | cons x xs ih =>
      rw [List.foldl_cons, ih _ (fun z hz => h z (List.mem_cons_of_mem _ hz))]
      exact life_inner_preserve field x _ nf i (fun y hy => h x (List.mem_cons_self x xs) y hy)

theorem life_outer_hit (field : List Cell) (hlen : field.length = 1024) (a b : Nat)
    (ha : a < 32) (hb : b < 32) (xs : List Nat) (hnd : xs.Nodup)
    (hxs : ∀ x ∈ xs, x < 32) (hmem : a ∈ xs) (nf : List Cell)
    (hnf : nf[b * 32 + a]? = field[b * 32 + a]?) :
    (xs.foldl (fun nf (x : Nat) => (List.range SIZE.toNat).foldl
        (fun nf2 (y : Nat) => life_rule_update field nf2 (x : Int) (y : Int)) nf) nf)[b * 32 + a]? =
      (field[b * 32 + a]?).map
        (fun c => { c with state := life_next_state field (a : Int) (b : Int) }) := by
  have h32 : SIZE.toNat = 32 := rfl
  induction xs generalizing nf with
  | nil => cases hmem
  | cons x xs ih =>
      rw [List.foldl_cons]
      by_cases hxa : x = a
      · subst hxa
        rw [life_outer_preserve field xs _ _ (fun z hz y hy => by
          have hza : z ≠ x := fun hzz => (List.nodup_cons.mp hnd).1 (hzz ▸ hz)
          have hz32 : z < 32 := hxs z (List.mem_cons_of_mem _ hz)
          have hy32 : y < 32 := by
            rw [h32] at hy
            exact List.mem_range.mp hy
          rw [pos_to_index_toNat]
          omega)]
        exact life_inner_hit field hlen x b ha hb (List.range SIZE.toNat)
          (List.nodup_range _)
          (fun y hy => by
            rw [h32] at hy
            exact List.mem_range.mp hy)
          (by
            rw [h32]
            exact List.mem_range.mpr hb) nf hnf
      · have hmem' : a ∈ xs := by
          cases List.mem_cons.mp hmem with
          | inl h => exact absurd h.symm hxa
          | inr h => exact h
        have hx32 : x < 32 := hxs x (List.mem_cons_self x xs)
        exact ih (List.nodup_cons.mp hnd).2 (fun z hz => hxs z (List.mem_cons_of_mem _ hz))
          hmem' _ (by
            rw [life_inner_preserve field x _ nf _ (fun y hy => by
              have hy32 : y < 32 := by
                rw [h32] at hy
                exact List.mem_range.mp hy
              rw [pos_to_index_toNat]
              omega), hnf])

theorem life_getElem? (field : List Cell) (hlen : field.length = 1024) (a b : Nat)
    (ha : a < 32) (hb : b < 32) :
    (life field)[b * 32 + a]? =
      (field[b * 32 + a]?).map
        (fun c => { c with state := life_next_state field (a : Int) (b : Int) }) := by
  have h32 : SIZE.toNat = 32 := rfl
  unfold life
  exact life_outer_hit field hlen a b ha hb (List.range SIZE.toNat) (List.nodup_range _)
    (fun x hx => by
      rw [h32] at hx
      exact List.mem_range.mp hx)
    (by
      rw [h32]
      exact List.mem_range.mpr ha)
    (init_recs (some field)) (init_recs_getElem? field hlen _)

/-- C1: for every grid of length SIZE² and every in-bounds cell, with `n`
the number of alive Moore-neighbours counted in the tick-start snapshot, the
cell is alive in the next grid exactly when (alive ∧ n ∈ {2, 3}) or
(dead ∧ n = 3); in particular an alive cell dies at n = 1 and at n = 0 or
n ≥ 4, and a dead cell stays dead unless n = 3.  The next state is a
function of the snapshot grid alone (the rule reads `field` and writes a
fresh grid, so there is no read-after-write within the tick). -/
theorem life_step_rule (field : List Cell) (hlen : field.length = (SIZE * SIZE).toNat)
    (x y : Int) (hx0 : 0 ≤ x) (hx : x < SIZE) (hy0 : 0 ≤ y) (hy : y < SIZE) :
    (_is_alive (get_cell (life field) x y) = true ↔
      (if _is_alive (get_cell field x y) = true
       then (get_neighbours_cells field x y).countP _is_alive = 2 ∨
            (get_neighbours_cells field x y).countP _is_alive = 3
       else (get_neighbours_cells field x y).countP _is_alive = 3)) := by
  rw [size_sq_toNat] at hlen
  obtain ⟨a, rfl⟩ : ∃ a : Nat, x = (a : Int) := ⟨x.toNat, (Int.toNat_of_nonneg hx0).symm⟩
  obtain ⟨b, rfl⟩ : ∃ b : Nat, y = (b : Int) := ⟨y.toNat, (Int.toNat_of_nonneg hy0).symm⟩
  have ha : a < 32 := by
    simp only [SIZE] at hx
    omega
  have hb : b < 32 := by
    simp only [SIZE] at hy
    omega
  rw [get_cell_in_bounds (life field) _ _ hx0 hx hy0 hy, pos_to_index_toNat]
  rw [life_getElem? field hlen a b ha hb]
  obtain ⟨c, hc⟩ : ∃ c, field[b * 32 + a]? = some c :=
    ⟨_, List.getElem?_eq_getElem (by omega)⟩
  rw [hc]
  have hstate : ∀ st : CellState,
      _is_alive (some { c with state := st }) = true ↔ st = CellState.Enabled := by
    intro st
    cases st <;> simp [_is_alive]
  show _is_alive (some { c with state := life_next_state field (a : Int) (b : Int) }) = true ↔ _
  rw [hstate]
  simp only [life_next_state]
  by_cases hal : _is_alive (get_cell field (a : Int) (b : Int)) = true
  · rw [if_pos hal, if_pos hal]
    by_cases h23 : (get_neighbours_cells field (a : Int) (b : Int)).countP _is_alive = 2 ∨
        (get_neighbours_cells field (a : Int) (b : Int)).countP _is_alive = 3
    · rw [if_pos h23]
      simp [h23]
    · rw [if_neg h23]
      simp [h23]
  · rw [if_neg hal, if_neg hal]
    by_cases h3 : (get_neighbours_cells field (a : Int) (b : Int)).countP _is_alive = 3
    · rw [if_pos h3]
      simp [h3]
    · rw [if_neg h3]
      simp [h3]

/-- C1 witness: the theorem applied at the concrete grid `gridD` and cell
`(3, 4)`. -/
theorem life_step_rule_witness :
    (_is_alive (get_cell (life gridD) 3 4) = true ↔
      (if _is_alive (get_cell gridD 3 4) = true
       then (get_neighbours_cells gridD 3 4).countP _is_alive = 2 ∨
            (get_neighbours_cells gridD 3 4).countP _is_alive = 3
       else (get_neighbours_cells gridD 3 4).countP _is_alive = 3)) :=
  life_step_rule gridD gridD_length 3 4 (by decide) (by decide) (by decide) (by decide)

/-- Observation: the pair of note-related flags of a cell. -/
def flags (c : Cell) : Bool × Bool :=
  (c.marked, c.active)

theorem set_cell_params_flags (rects : List Cell) (x y : Int) (s : Option CellState) (i : Nat) :
    ((set_cell_params rects x y s none none)[i]?).map flags = (rects[i]?).map flags := by
  rw [set_cell_params_getElem?]
  split
  · cases rects[i]? <;> rfl
  · rfl

theorem foldl_flags {β : Type} (step : List Cell → β → List Cell) (l : List β)
    (r : List Cell) (i : Nat)
    (h : ∀ r b, ((step r b)[i]?).map flags = (r[i]?).map flags) :
    ((l.foldl step r)[i]?).map flags = (r[i]?).map flags := by
  induction l generalizing r with
  | nil => rfl
  | cons b l ih => rw [List.foldl_cons, ih, h]

theorem set_state_flags (r : List Cell) (j : Nat) (c : Cell) (hc : r[j]? = some c)
    (st : CellState) (i : Nat) :
    ((r.set j { c with state := st })[i]?).map flags = (r[i]?).map flags := by
  have hj : j < r.length := by
    rcases List.getElem?_eq_some.mp hc with ⟨hl, _⟩
    exact hl
  rw [List.getElem?_set]
  by_cases h : j = i
  · subst h
    rw [if_pos rfl, if_pos hj, hc]
    rfl
  · rw [if_neg h]

theorem clear_field_flags (rects : List Cell) (i : Nat) :
    ((clear_field rects)[i]?).map flags = (rects[i]?).map flags := by
  unfold clear_field
  apply foldl_flags
  intro r j
  cases hc : r[j.toNat]? with
  | none => simp only [hc]
  | some c =>
      simp only [hc]
      exact set_state_flags r j.toNat c hc _ i

theorem life_rule_update_flags (field nf : List Cell) (x y : Int) (i : Nat) :
    ((life_rule_update field nf x y)[i]?).map flags = (nf[i]?).map flags := by
  rw [life_rule_update_eq]
  split
  · rw [set_cell_params_flags]
  · rfl

theorem mover_step_eq (t : Int) (field : List Cell) :
    mover_step t field =
      if get_prev_pos t = get_next_pos t then field
      else
        set_cell_params
          (set_cell_params field (get_prev_pos t).1 (get_prev_pos t).2
            (some CellState.Disabled) none none)
          (get_next_pos t).1 (get_next_pos t).2 (some CellState.Enabled) none none := rfl

theorem rain_step_eq (randX : Int) (field : List Cell) :
    rain_step randX field =
      (get_enabled_cells_indexes field).foldl
        (fun r index =>
          if (index_to_pos index).2 + 1 < SIZE then
            set_cell_params r (index_to_pos index).1 ((index_to_pos index).2 + 1)
              (some CellState.Enabled) none none
          else r)
        (if (get_enabled_cells_indexes field).length < (SIZE * 2).toNat then
          set_cell_params (clear_field field) randX 0 (some CellState.Enabled) none none
        else clear_field field) := rfl

theorem mover_step_flags (t : Int) (field : List Cell) (i : Nat) :
    ((mover_step t field)[i]?).map flags = (field[i]?).map flags := by
  rw [mover_step_eq]
  split
  · rfl
  · rw [set_cell_params_flags, set_cell_params_flags]

theorem rain_step_flags (randX : Int) (field : List Cell) (i : Nat) :
    ((rain_step randX field)[i]?).map flags = (field[i]?).map flags := by
  rw [rain_step_eq]
  rw [foldl_flags _ _ _ _ (fun r j => by
    split
    · rw [set_cell_params_flags]
    · rfl)]
  split
  · rw [set_cell_params_flags, clear_field_flags]
  · rw [clear_field_flags]

theorem life_flags (field : List Cell) (hlen : field.length = 1024) (i : Nat) :
    ((life field)[i]?).map flags = (field[i]?).map flags := by
  unfold life
  rw [foldl_flags _ _ _ _ (fun r x =>
    foldl_flags _ _ _ _ (fun r2 y => life_rule_update_flags field r2 _ _ i))]
  rw [init_recs_getElem? field hlen i]

/-- C10: the per-tick bodies of the three simulations (seed logic excluded)
leave the `marked` and `active` flag of every cell unchanged: `mover` and
`rain` always pass `None` for those fields of `set_cell_params` (whose merge
keeps an unspecified field), `clear_field` touches only `state`, and the
`life` pass starts from a full copy of the old grid and likewise passes
`None` for both flags. -/
theorem sim_steps_preserve_flags (field : List Cell)
    (hlen : field.length = (SIZE * SIZE).toNat) (t randX : Int) (i : Nat) :
    ((mover_step t field)[i]?).map flags = (field[i]?).map flags ∧
    ((rain_step randX field)[i]?).map flags = (field[i]?).map flags ∧
    ((life field)[i]?).map flags = (field[i]?).map flags := by
  rw [size_sq_toNat] at hlen
  exact ⟨mover_step_flags t field i, rain_step_flags randX field i, life_flags field hlen i⟩

/-- C10 witness: the theorem applied at the concrete grid `gridD`, tick 5,
rain column 2, and flat index 7. -/
theorem sim_steps_preserve_flags_witness :
    ((mover_step 5 gridD)[7]?).map flags = (gridD[7]?).map flags ∧
    ((rain_step 2 gridD)[7]?).map flags = (gridD[7]?).map flags ∧
    ((life gridD)[7]?).map flags = (gridD[7]?).map flags :=
  sim_steps_preserve_flags gridD gridD_length 5 2 7

theorem aliveAt_set_cell_params (rects : List Cell) (x y : Int) (st : CellState) (i : Nat) :
    aliveAt (set_cell_params rects x y (some st) none none) i =
      if i = (pos_to_index (x, y)).toNat ∧ i < rects.length then
        decide (st = CellState.Enabled)
      else aliveAt rects i := by
  unfold aliveAt
  rw [set_cell_params_getElem?]
  by_cases h : i = (pos_to_index (x, y)).toNat
  · rw [if_pos h]
    by_cases hl : i < rects.length
    · rw [if_pos ⟨h, hl⟩]
      obtain ⟨c, hc⟩ : ∃ c, rects[i]? = some c := ⟨_, List.getElem?_eq_getElem hl⟩
      rw [hc]
      cases st <;> rfl
    · rw [if_neg (fun hh => hl hh.2), List.getElem?_eq_none (by omega)]
      rfl
  · rw [if_neg h, if_neg (fun hh => h hh.1)]

theorem aliveAt_cons_succ (c : Cell) (l : List Cell) (i : Nat) :
    aliveAt (c :: l) (i + 1) = aliveAt l i := by
  simp [aliveAt]

theorem aliveAt_cons_zero (c : Cell) (l : List Cell) :
    aliveAt (c :: l) 0 = _is_alive (some c) := by
  simp [aliveAt]

theorem countP_alive_eq_one (l : List Cell) (j : Nat) (hj : j < l.length)
    (h : ∀ i : Nat, i < l.length → (aliveAt l i = true ↔ i = j)) :
    aliveCount l = 1 := by
  induction l generalizing j with
  | nil => exact absurd hj (by simp)
  | cons c rest ih =>
      unfold aliveCount
      rw [List.countP_cons]
      cases j with
      | zero =>
          have hc : _is_alive (some c) = true := by
            rw [← aliveAt_cons_zero c rest]
            exact (h 0 (by simp)).mpr rfl
          have hrest : List.countP (fun x => _is_alive (some x)) rest = 0 := by
            rw [List.countP_eq_zero]
            intro a ha
            obtain ⟨n, hn⟩ := List.mem_iff_getElem?.mp ha
            have hb : n < rest.length := (List.getElem?_eq_some.mp hn).1
            have hiff := h (n + 1) (by simp only [List.length_cons]; omega)
            rw [aliveAt_cons_succ] at hiff
            intro hpa
            have halive : aliveAt rest n = true := by
              unfold aliveAt
              rw [hn]
              exact hpa
            exact absurd (hiff.mp halive) (by omega)
          rw [hrest, hc, if_pos rfl]
      | succ j' =>
          have hc : _is_alive (some c) = false := by
            cases hv : _is_alive (some c)
            · rfl
            · have h0 := (h 0 (by simp)).mp (by rw [aliveAt_cons_zero]; exact hv)
              exact absurd h0 (by omega)
          have ih' := ih j' (by simpa using hj) (fun i hi => by
            have hiff := h (i + 1) (by simp only [List.length_cons]; omega)
            rw [aliveAt_cons_succ] at hiff
            constructor
            · intro ha
              have := hiff.mp ha
              omega
            · intro hij
              exact hiff.mpr (by omega))
          unfold aliveCount at ih'
          rw [ih', hc]
          rfl

theorem pos_index_roundtrip (v : Int) (hv : 0 ≤ v) :
    pos_to_index (index_to_pos v) = v := by
  unfold pos_to_index index_to_pos
  simp only [SIZE]
  rw [Int.tmod_eq_emod hv (by norm_num), Int.tdiv_eq_ediv hv (by norm_num)]
  omega

theorem mover_step_length (t : Int) (field : List Cell) :
    (mover_step t field).length = field.length := by
  rw [mover_step_eq]
  split
  · rfl
  · rw [set_cell_params_length, set_cell_params_length]

/-- C7: Mover invariant preservation: at tick `t` (the driver's frame,
`0 ≤ t`), if the grid holds exactly one alive cell, at the flat index the
previous tick left it at (`mover_prev_index t`), then after the mover's
per-tick body the grid again holds exactly one alive cell, at flat index
`t mod SIZE²` — including the `t = 0` no-op case where previous and next
positions coincide. -/
theorem mover_invariant (t : Int) (ht : 0 ≤ t) (field : List Cell)
    (hlen : field.length = (SIZE * SIZE).toNat)
    (hprev : ∀ i : Nat, i < (SIZE * SIZE).toNat →
      (aliveAt field i = true ↔ (i : Int) = mover_prev_index t)) :
    aliveCount (mover_step t field) = 1 ∧
    ∀ i : Nat, i < (SIZE * SIZE).toNat →
      (aliveAt (mover_step t field) i = true ↔ (i : Int) = t.tmod (SIZE * SIZE)) := by
  have hss : SIZE * SIZE = (1024 : Int) := rfl
  rw [size_sq_toNat] at hlen
  simp only [size_sq_toNat] at hprev ⊢
  by_cases ht1 : t < 1
  · have ht0 : t = 0 := by omega
    subst ht0
    have hstep : mover_step 0 field = field := by
      rw [mover_step_eq, if_pos (show get_prev_pos 0 = get_next_pos 0 from rfl)]
    have hmpi : mover_prev_index 0 = (0 : Int) := rfl
    have hN0 : Int.tmod 0 (SIZE * SIZE) = (0 : Int) := rfl
    rw [hstep]
    have hpoint : ∀ i : Nat, i < 1024 →
        (aliveAt field i = true ↔ (i : Int) = Int.tmod 0 (SIZE * SIZE)) := by
      intro i hi
      rw [hN0, ← hmpi]
      exact hprev i hi
    refine ⟨?_, hpoint⟩
    apply countP_alive_eq_one field 0 (by omega)
    intro i hi
    rw [hprev i (by omega), hmpi]
    omega
  · -- t ≥ 1: previous and next indices differ, so the step moves the cell.
    have hP : (t - 1).tmod (SIZE * SIZE) = (t - 1) % 1024 := by
      rw [hss]
      exact Int.tmod_eq_emod (by omega) (by norm_num)
    have hN : t.tmod (SIZE * SIZE) = t % 1024 := by
      rw [hss]
      exact Int.tmod_eq_emod (by omega) (by norm_num)
    have hPb : 0 ≤ (t - 1).tmod (SIZE * SIZE) ∧ (t - 1).tmod (SIZE * SIZE) < 1024 := by
      rw [hP]
      omega
    have hNb : 0 ≤ t.tmod (SIZE * SIZE) ∧ t.tmod (SIZE * SIZE) < 1024 := by
      rw [hN]
      omega
    have hPN : (t - 1).tmod (SIZE * SIZE) ≠ t.tmod (SIZE * SIZE) := by
      rw [hP, hN]
      omega
    have hprevpos : get_prev_pos t = index_to_pos ((t - 1).tmod (SIZE * SIZE)) := by
      unfold get_prev_pos
      rw [if_neg ht1]
    have hnextpos : get_next_pos t = index_to_pos (t.tmod (SIZE * SIZE)) := rfl
    have hneq : get_prev_pos t ≠ get_next_pos t := by
      rw [hprevpos, hnextpos]
      intro hEq
      apply hPN
      have h1 := congrArg pos_to_index hEq
      rw [pos_index_roundtrip _ hPb.1, pos_index_roundtrip _ hNb.1] at h1
      exact h1
    have hidxP : (pos_to_index ((get_prev_pos t).1, (get_prev_pos t).2)).toNat =
        ((t - 1).tmod (SIZE * SIZE)).toNat := by
      rw [hprevpos]
      rw [show ((index_to_pos ((t - 1).tmod (SIZE * SIZE))).1,
            (index_to_pos ((t - 1).tmod (SIZE * SIZE))).2) =
          index_to_pos ((t - 1).tmod (SIZE * SIZE)) from rfl]
      rw [pos_index_roundtrip _ hPb.1]
    have hidxN : (pos_to_index ((get_next_pos t).1, (get_next_pos t).2)).toNat =
        (t.tmod (SIZE * SIZE)).toNat := by
      rw [hnextpos]
      rw [show ((index_to_pos (t.tmod (SIZE * SIZE))).1,
            (index_to_pos (t.tmod (SIZE * SIZE))).2) =
          index_to_pos (t.tmod (SIZE * SIZE)) from rfl]
      rw [pos_index_roundtrip _ hNb.1]
    have hmpi : mover_prev_index t = (t - 1).tmod (SIZE * SIZE) := by
      unfold mover_prev_index
      rw [if_neg ht1]
    have hlen1 : (set_cell_params field (get_prev_pos t).1 (get_prev_pos t).2
        (some CellState.Disabled) none none).length = 1024 := by
      rw [set_cell_params_length, hlen]
    have hpoint : ∀ i : Nat, i < 1024 →
        (aliveAt (mover_step t field) i = true ↔ (i : Int) = t.tmod (SIZE * SIZE)) := by
      intro i hi
      rw [mover_step_eq, if_neg hneq, aliveAt_set_cell_params, aliveAt_set_cell_params]
      by_cases hiN : i = (t.tmod (SIZE * SIZE)).toNat
      · rw [if_pos ⟨by rw [hidxN, hiN], by rw [hlen1]; omega⟩]
        constructor
        · intro _
          omega
        · intro _
          rfl
      · rw [if_neg (fun hh => hiN (by rw [← hidxN]; exact hh.1))]
        by_cases hiP : i = ((t - 1).tmod (SIZE * SIZE)).toNat
        · rw [if_pos ⟨by rw [hidxP, hiP], by rw [hlen]; omega⟩]
          constructor
          · intro hFalse
            exact absurd hFalse (by decide)
          · intro hiEq
            exact absurd (by omega : i = (t.tmod (SIZE * SIZE)).toNat) hiN
        · rw [if_neg (fun hh => hiP (by rw [← hidxP]; exact hh.1))]
          rw [hprev i (by omega), hmpi]
          constructor
          · intro hiEq
            exact absurd (by omega : i = ((t - 1).tmod (SIZE * SIZE)).toNat) hiP
          · intro hiEq
            exact absurd (by omega : i = (t.tmod (SIZE * SIZE)).toNat) hiN
    refine ⟨?_, hpoint⟩
    apply countP_alive_eq_one (mover_step t field) (t.tmod (SIZE * SIZE)).toNat
      (by rw [mover_step_length, hlen]; omega)
    intro i hi
    rw [mover_step_length, hlen] at hi
    rw [hpoint i hi]
    omega

theorem aliveAt_mkGrid (f : Nat → Cell) (i : Nat) (hi : i < 1024) :
    aliveAt (mkGrid f) i = _is_alive (some (f i)) := by
  unfold aliveAt mkGrid
  rw [size_sq_toNat, List.getElem?_map, List.getElem?_range hi]
  rfl

theorem mover_seed_gridD_length : (mover_seed gridD).length = (SIZE * SIZE).toNat := by
  unfold mover_seed
  rw [set_cell_params_length, gridD_length]

theorem mover_seed_gridD_alive : ∀ i : Nat, i < (SIZE * SIZE).toNat →
    (aliveAt (mover_seed gridD) i = true ↔ (i : Int) = mover_prev_index 0) := by
  intro i hi
  rw [size_sq_toNat] at hi
  have hgl : gridD.length = 1024 := by
    rw [gridD_length, size_sq_toNat]
  unfold mover_seed
  rw [aliveAt_set_cell_params]
  have hidx : (pos_to_index ((0 : Int), (0 : Int))).toNat = 0 := rfl
  have hmpi : mover_prev_index 0 = (0 : Int) := rfl
  by_cases hi0 : i = 0
  · subst hi0
    rw [if_pos ⟨hidx.symm, by omega⟩, hmpi]
    simp
  · rw [if_neg (fun hh => hi0 (by rw [← hidx]; exact hh.1)), hmpi]
    have : aliveAt gridD i = false := by
      rw [gridD, aliveAt_mkGrid _ _ hi]
      rfl
    rw [this]
    constructor
    · intro hFalse
      exact absurd hFalse (by decide)
    · intro hiF
      exact absurd (by omega : i = 0) hi0

/-- C7 witness: the theorem applied at tick 0 to the freshly seeded grid
(cell `(0, 0)` alive): the step is the no-op case, yet exactly one cell is
alive afterwards. -/
theorem mover_invariant_witness : aliveCount (mover_step 0 (mover_seed gridD)) = 1 :=
  (mover_invariant 0 (by norm_num) (mover_seed gridD)
    mover_seed_gridD_length mover_seed_gridD_alive).1

theorem get_enabled_go_length (l : List Cell) : ∀ n : Nat,
    (get_enabled_go n l).length = aliveCount l := by
  induction l with
  | nil =>
      intro n
      rfl
  | cons c rest ih =>
      intro n
      unfold get_enabled_go aliveCount
      rw [List.countP_cons]
      by_cases hc : _is_alive (some c) = true
      · rw [if_pos hc, if_pos hc, List.length_cons, ih (n + 1)]
        rfl
      · rw [if_neg hc, if_neg hc, ih (n + 1)]
        rfl

theorem get_enabled_go_mem (l : List Cell) : ∀ (n : Nat) (k : Int),
    k ∈ get_enabled_go n l ↔ ∃ j : Nat, k = ((n + j : Nat) : Int) ∧ _is_alive l[j]? = true := by
  induction l with
  | nil =>
      intro n k
      constructor
      · intro hk
        exact absurd hk (List.not_mem_nil k)
      · rintro ⟨j, _, hj⟩
        simp [List.getElem?_nil, _is_alive] at hj
  | cons c rest ih =>
      intro n k
      unfold get_enabled_go
      constructor
      · intro hk
        by_cases hc : _is_alive (some c) = true
        · rw [if_pos hc] at hk
          rcases List.mem_cons.mp hk with hk0 | hk1
          · exact ⟨0, by rw [hk0]; norm_num, by simpa using hc⟩
          · obtain ⟨j, hkj, hj⟩ := (ih (n + 1) k).mp hk1
            exact ⟨j + 1, by rw [hkj]; congr 1; omega, by simpa using hj⟩
        · rw [if_neg hc] at hk
          obtain ⟨j, hkj, hj⟩ := (ih (n + 1) k).mp hk
          exact ⟨j + 1, by rw [hkj]; congr 1; omega, by simpa using hj⟩
      · rintro ⟨j, rfl, hj⟩
        cases j with
        | zero =>
            have hc : _is_alive (some c) = true := by simpa using hj
            rw [if_pos hc]
            exact List.mem_cons_self _ _
        | succ j' =>
            have hj' : _is_alive rest[j']? = true := by simpa using hj
            have hmem : ((n + 1 + j' : Nat) : Int) ∈ get_enabled_go (n + 1) rest :=
              (ih (n + 1) _).mpr ⟨j', rfl, hj'⟩
            have heq : ((n + 1 + j' : Nat) : Int) = ((n + (j' + 1) : Nat) : Int) := by
              congr 1
              omega
            by_cases hc : _is_alive (some c) = true
            · rw [if_pos hc]
              exact List.mem_cons_of_mem _ (heq ▸ hmem)
            · rw [if_neg hc]
              exact heq ▸ hmem

theorem mem_get_enabled (rects : List Cell) (k : Int) :
    k ∈ get_enabled_cells_indexes rects ↔
      ∃ j : Nat, k = (j : Int) ∧ aliveAt rects j = true := by
  unfold get_enabled_cells_indexes aliveAt
  rw [get_enabled_go_mem]
  constructor
  · rintro ⟨j, rfl, hj⟩
    exact ⟨j, by norm_num, hj⟩
  · rintro ⟨j, rfl, hj⟩
    exact ⟨j, by norm_num, hj⟩

theorem get_enabled_length (rects : List Cell) :
    (get_enabled_cells_indexes rects).length = aliveCount rects := by
  unfold get_enabled_cells_indexes
  exact get_enabled_go_length rects 0

theorem disable_foldl_getElem? (is : List Int) (r : List Cell) (i : Nat) :
    (is.foldl (fun r index =>
      match r[index.toNat]? with
      | some c => r.set index.toNat { c with state := CellState.Disabled }
      | none => r) r)[i]? =
    if ∃ v ∈ is, v.toNat = i then
      (r[i]?).map (fun c => { c with state := CellState.Disabled })
    else r[i]? := by
  have hstep : ∀ (r : List Cell) (v : Int),
      (match r[v.toNat]? with
       | some c => r.set v.toNat { c with state := CellState.Disabled }
       | none => r)[i]? =
      if v.toNat = i then (r[i]?).map (fun c => { c with state := CellState.Disabled })
      else r[i]? := by
    intro r v
    cases hc : r[v.toNat]? with
    | none =>
        simp only
        by_cases hv : v.toNat = i
        · rw [if_pos hv]
          rw [hv] at hc
          rw [hc]
          rfl
        · rw [if_neg hv]
    | some c =>
        simp only
        have hl : v.toNat < r.length := (List.getElem?_eq_some.mp hc).1
        rw [List.getElem?_set]
        by_cases hv : v.toNat = i
        · rw [if_pos hv, if_pos hl, if_pos hv, ← hv, hc]
          rfl
        · rw [if_neg hv, if_neg hv]
  induction is generalizing r with
  | nil => simp
  | cons v is ih =>
      rw [List.foldl_cons, ih, hstep]
      by_cases hv : v.toNat = i
      · by_cases hin : ∃ u ∈ is, u.toNat = i
        · rw [if_pos hin, if_pos hv, if_pos ⟨v, List.mem_cons_self v is, hv⟩]
          cases r[i]? <;> rfl
        · rw [if_neg hin, if_pos hv, if_pos ⟨v, List.mem_cons_self v is, hv⟩]
      · by_cases hin : ∃ u ∈ is, u.toNat = i
        · rw [if_pos hin, if_neg hv]
          rw [if_pos (by
            obtain ⟨u, hu, hui⟩ := hin
            exact ⟨u, List.mem_cons_of_mem _ hu, hui⟩)]
        · rw [if_neg hin, if_neg hv, if_neg (by
            rintro ⟨u, hu, hui⟩
            rcases List.mem_cons.mp hu with rfl | hu'
            · exact hv hui
            · exact hin ⟨u, hu', hui⟩)]

theorem clear_field_getElem? (rects : List Cell) (i : Nat) :
    (clear_field rects)[i]? =
      (rects[i]?).map (fun c => { c with state := CellState.Disabled }) := by
  unfold clear_field
  rw [disable_foldl_getElem?]
  by_cases hin : ∃ v ∈ get_enabled_cells_indexes rects, v.toNat = i
  · rw [if_pos hin]
  · rw [if_neg hin]
    cases hc : rects[i]? with
    | none => rfl
    | some c =>
        cases hcs : c.state with
        | Enabled =>
            exfalso
            apply hin
            refine ⟨(i : Int), ?_, by norm_num⟩
            rw [mem_get_enabled]
            refine ⟨i, rfl, ?_⟩
            unfold aliveAt
            rw [hc]
            simp [_is_alive, hcs]
        | Disabled =>
            obtain ⟨st, mk, ac⟩ := c
            cases hcs
            rfl
  
theorem clear_field_eq_map (rects : List Cell) :
    clear_field rects = rects.map (fun c => { c with state := CellState.Disabled }) := by
  apply List.ext_getElem?
  intro n
  rw [clear_field_getElem?, List.getElem?_map]

theorem clear_field_length (rects : List Cell) :
    (clear_field rects).length = rects.length := by
  rw [clear_field_eq_map, List.length_map]

theorem aliveAt_clear_field (rects : List Cell) (i : Nat) :
    aliveAt (clear_field rects) i = false := by
  unfold aliveAt
  rw [clear_field_getElem?]
  cases rects[i]? <;> rfl

theorem aliveCount_clear_field (rects : List Cell) :
    aliveCount (clear_field rects) = 0 := by
  rw [clear_field_eq_map]
  unfold aliveCount
  rw [List.countP_map, List.countP_eq_zero]
  intro a _
  intro hyp
  exact absurd hyp (by simp [Function.comp, _is_alive])

theorem countP_set_le (l : List Cell) (c : Cell) : ∀ j : Nat,
    aliveCount (l.set j c) ≤ aliveCount l + 1 := by
  induction l with
  | nil =>
      intro j
      simp [aliveCount]
  | cons d rest ih =>
      intro j
      cases j with
      | zero =>
          rw [List.set_cons_zero]
          unfold aliveCount
          rw [List.countP_cons, List.countP_cons]
          split_ifs <;> omega
      | succ j' =>
          rw [List.set_cons_succ]
          unfold aliveCount
          rw [List.countP_cons, List.countP_cons]
          have hih := ih j'
          unfold aliveCount at hih
          split_ifs <;> omega

theorem aliveCount_set_cell_params_le (r : List Cell) (x y : Int) (s : Option CellState)
    (m a : Option Bool) :
    aliveCount (set_cell_params r x y s m a) ≤ aliveCount r + 1 := by
  rw [set_cell_params_eq_match]
  cases r[(pos_to_index (x, y)).toNat]? with
  | none =>
      show aliveCount r ≤ aliveCount r + 1
      omega
  | some c =>
      show aliveCount (r.set (pos_to_index (x, y)).toNat (merge_cell c s m a)) ≤
        aliveCount r + 1
      exact countP_set_le r _ _

theorem rain_fall_count_le (is : List Int) : ∀ r : List Cell,
    aliveCount (is.foldl (fun r index =>
      if (index_to_pos index).2 + 1 < SIZE then
        set_cell_params r (index_to_pos index).1 ((index_to_pos index).2 + 1)
          (some CellState.Enabled) none none
      else r) r) ≤ aliveCount r + is.length := by
  induction is with
  | nil =>
      intro r
      simp
  | cons v is ih =>
      intro r
      rw [List.foldl_cons]
      have h1 := ih (if (index_to_pos v).2 + 1 < SIZE then
        set_cell_params r (index_to_pos v).1 ((index_to_pos v).2 + 1)
          (some CellState.Enabled) none none
      else r)
      have h2 : aliveCount (if (index_to_pos v).2 + 1 < SIZE then
          set_cell_params r (index_to_pos v).1 ((index_to_pos v).2 + 1)
            (some CellState.Enabled) none none
        else r) ≤ aliveCount r + 1 := by
        split
        · exact aliveCount_set_cell_params_le r _ _ _ _ _
        · omega
      rw [List.length_cons]
      omega

theorem fall_step_aliveAt (r : List Cell) (hr : r.length = 1024) (j : Nat) (i : Nat) :
    aliveAt (if (index_to_pos ((j : Nat) : Int)).2 + 1 < SIZE then
        set_cell_params r (index_to_pos ((j : Nat) : Int)).1
          ((index_to_pos ((j : Nat) : Int)).2 + 1) (some CellState.Enabled) none none
      else r) i =
    (aliveAt r i || decide (((j : Int) + 32 = (i : Int)) ∧ (j : Int) + 32 < 1024)) := by
  have h2 : (index_to_pos ((j : Nat) : Int)).2 = ((j / 32 : Nat) : Int) := rfl
  by_cases hcond : (index_to_pos ((j : Nat) : Int)).2 + 1 < SIZE
  · have hjn : j + 32 < 1024 := by
      rw [h2] at hcond
      simp only [SIZE] at hcond
      omega
    rw [if_pos hcond, aliveAt_set_cell_params]
    have hidx : (pos_to_index ((index_to_pos ((j : Nat) : Int)).1,
        (index_to_pos ((j : Nat) : Int)).2 + 1)).toNat = j + 32 := by
      rw [show (index_to_pos ((j : Nat) : Int)).1 = ((j % 32 : Nat) : Int) from rfl, h2]
      unfold pos_to_index
      simp only [SIZE]
      rw [show (((j / 32 : Nat) : Int) + 1) * 32 + ((j % 32 : Nat) : Int) =
          ((j + 32 : Nat) : Int) by push_cast; omega]
      rfl
    by_cases hij : i = j + 32
    · rw [if_pos ⟨by rw [hidx, hij], by omega⟩]
      have hd : ((j : Int) + 32 = (i : Int)) ∧ (j : Int) + 32 < 1024 :=
        ⟨by omega, by omega⟩
      rw [decide_eq_true hd, Bool.or_true]
      rfl
    · rw [if_neg (fun hh => hij (by rw [← hidx]; exact hh.1))]
      have hd : ¬(((j : Int) + 32 = (i : Int)) ∧ (j : Int) + 32 < 1024) := by
        intro hh
        exact hij (by omega)
      simp [hd]
  · rw [if_neg hcond]
    have hd : ¬(((j : Int) + 32 = (i : Int)) ∧ (j : Int) + 32 < 1024) := by
      rw [h2] at hcond
      simp only [SIZE] at hcond
      intro hh
      omega
    simp [hd]

theorem rain_fall_aliveAt (is : List Int) : ∀ r : List Cell, r.length = 1024 →
    (∀ v ∈ is, 0 ≤ v) → ∀ i : Nat,
    aliveAt (is.foldl (fun r index =>
      if (index_to_pos index).2 + 1 < SIZE then
        set_cell_params r (index_to_pos index).1 ((index_to_pos index).2 + 1)
          (some CellState.Enabled) none none
      else r) r) i =
    (aliveAt r i || is.any (fun v => decide ((v + 32 = (i : Int)) ∧ v + 32 < 1024))) := by
  induction is with
  | nil =>
      intro r _ _ i
      simp
  | cons v is ih =>
      intro r hr his i
      obtain ⟨j, rfl⟩ : ∃ j : Nat, v = ((j : Nat) : Int) :=
        ⟨v.toNat, (Int.toNat_of_nonneg (his v (List.mem_cons_self v is))).symm⟩
      rw [List.foldl_cons]
      have hsl : (if (index_to_pos ((j : Nat) : Int)).2 + 1 < SIZE then
          set_cell_params r (index_to_pos ((j : Nat) : Int)).1
            ((index_to_pos ((j : Nat) : Int)).2 + 1) (some CellState.Enabled) none none
        else r).length = 1024 := by
        split
        · rw [set_cell_params_length, hr]
        · exact hr
      rw [ih _ hsl (fun u hu => his u (List.mem_cons_of_mem _ hu)) i]
      rw [fall_step_aliveAt r hr j i, List.any_cons, ← Bool.or_assoc]

/-- C8: one rain tick on a grid of length SIZE²: (a) immediately after
`clear_field` the alive count is 0; (b) after the full step the alive count
is at most the previous alive count plus 1; (c) the grid cell at flat index
`i` is alive after the step exactly when it is the fresh drop — spawned at
`(randX, 0)` only when the previous alive count was below `SIZE * 2` — or
when some previously alive cell one row above fell onto it (`i = j + 32`
with `j + 32` still on the grid); previously alive cells on the bottom row
(`j + 32 ≥ SIZE²`) contribute nothing (discarded, not wrapped). -/
theorem rain_spec (field : List Cell) (hlen : field.length = (SIZE * SIZE).toNat)
    (randX : Int) (hr0 : 0 ≤ randX) (hr1 : randX < SIZE) :
    aliveCount (clear_field field) = 0 ∧
    aliveCount (rain_step randX field) ≤ aliveCount field + 1 ∧
    (∀ i : Nat, i < (SIZE * SIZE).toNat →
      (aliveAt (rain_step randX field) i = true ↔
        ((aliveCount field < (SIZE * 2).toNat ∧ (i : Int) = randX) ∨
         ∃ j : Nat, aliveAt field j = true ∧ j + 32 < (SIZE * SIZE).toNat ∧ i = j + 32))) := by
  rw [size_sq_toNat] at hlen
  have h64 : (SIZE * 2).toNat = 64 := rfl
  have hr1n : randX < 32 := by
    simp only [SIZE] at hr1
    exact_mod_cast hr1
  have hclen : (clear_field field).length = 1024 := by
    rw [clear_field_length, hlen]
  refine ⟨aliveCount_clear_field field, ?_, ?_⟩
  · rw [rain_step_eq]
    have h1 := rain_fall_count_le (get_enabled_cells_indexes field)
      (if (get_enabled_cells_indexes field).length < (SIZE * 2).toNat then
        set_cell_params (clear_field field) randX 0 (some CellState.Enabled) none none
      else clear_field field)
    have h2 : aliveCount (if (get_enabled_cells_indexes field).length < (SIZE * 2).toNat then
        set_cell_params (clear_field field) randX 0 (some CellState.Enabled) none none
      else clear_field field) ≤ 1 := by
      split
      · have h3 := aliveCount_set_cell_params_le (clear_field field) randX 0
          (some CellState.Enabled) none none
        rw [aliveCount_clear_field] at h3
        omega
      · rw [aliveCount_clear_field]
        omega
    have h3 := get_enabled_length field
    omega
  · intro i hi
    rw [size_sq_toNat] at hi
    simp only [size_sq_toNat]
    have hspl : (if (get_enabled_cells_indexes field).length < (SIZE * 2).toNat then
        set_cell_params (clear_field field) randX 0 (some CellState.Enabled) none none
      else clear_field field).length = 1024 := by
      split
      · rw [set_cell_params_length, hclen]
      · exact hclen
    have hnn : ∀ v ∈ get_enabled_cells_indexes field, 0 ≤ v := by
      intro v hv
      obtain ⟨j, rfl, _⟩ := (mem_get_enabled field v).mp hv
      positivity
    rw [rain_step_eq, rain_fall_aliveAt _ _ hspl hnn i]
    have hsp : aliveAt (if (get_enabled_cells_indexes field).length < (SIZE * 2).toNat then
        set_cell_params (clear_field field) randX 0 (some CellState.Enabled) none none
      else clear_field field) i =
        decide (aliveCount field < 64 ∧ (i : Int) = randX) := by
      have hidxr : (pos_to_index (randX, (0 : Int))).toNat = randX.toNat := by
        unfold pos_to_index
        simp only [SIZE]
        rw [show (0 : Int) * 32 + randX = randX by ring]
      split
      · rename_i hcnt
        rw [get_enabled_length, h64] at hcnt
        rw [aliveAt_set_cell_params]
        by_cases hir : i = randX.toNat
        · rw [if_pos ⟨by rw [hidxr, hir], by rw [hclen]; omega⟩]
          have hieq : (i : Int) = randX := by omega
          have hdec : decide (aliveCount field < 64 ∧ (i : Int) = randX) = true :=
            decide_eq_true ⟨hcnt, hieq⟩
          rw [hdec]
          rfl
        · rw [if_neg (fun hh => hir (by rw [← hidxr]; exact hh.1)), aliveAt_clear_field]
          have hne : ¬(aliveCount field < 64 ∧ (i : Int) = randX) := by
            rintro ⟨_, hh⟩
            exact hir (by omega)
          simp [hne]
      · rename_i hcnt
        rw [get_enabled_length, h64] at hcnt
        rw [aliveAt_clear_field]
        have hne : ¬(aliveCount field < 64 ∧ (i : Int) = randX) := fun hh => hcnt hh.1
        simp [hne]
    rw [hsp]
    rw [Bool.or_eq_true, decide_eq_true_eq, List.any_eq_true]
    constructor
    · rintro (⟨h1, h2⟩ | ⟨v, hv, hcond⟩)
      · exact Or.inl ⟨by rwa [h64], h2⟩
      · right
        obtain ⟨j, rfl, hj⟩ := (mem_get_enabled field v).mp hv
        rw [decide_eq_true_eq] at hcond
        exact ⟨j, hj, by omega, by omega⟩
    · rintro (⟨h1, h2⟩ | ⟨j, hj, hjb, rfl⟩)
      · exact Or.inl ⟨by rwa [h64] at h1, h2⟩
      · right
        refine ⟨(j : Int), (mem_get_enabled field _).mpr ⟨j, rfl, hj⟩, ?_⟩
        rw [decide_eq_true_eq]
        exact ⟨by omega, by omega⟩

/-- C8 witness: the theorem applied at the all-dead concrete grid `gridD`
and spawn column 2: clearing that grid leaves zero alive cells. -/
theorem rain_spec_witness : aliveCount (clear_field gridD) = 0 :=
  (rain_spec gridD gridD_length 2 (by norm_num) (by norm_num [SIZE])).1

theorem collisions_go_mem (l : List Cell) : ∀ n k : Nat,
    k ∈ (get_collisions_go n l).filterMap (fun e => e.map (fun p => p.1)) ↔
      ∃ j : Nat, k = n + j ∧
        ∃ c, l[j]? = some c ∧ c.state = CellState.Enabled ∧ c.marked = true := by
  induction l with
  | nil =>
      intro n k
      simp [get_collisions_go]
  | cons c rest ih =>
      intro n k
      unfold get_collisions_go
      rw [List.filterMap_cons]
      by_cases hc : c.state = CellState.Enabled ∧ c.marked = true
      · rw [if_pos hc]
        show k ∈ n :: (get_collisions_go (n + 1) rest).filterMap (fun e => e.map (fun p => p.1)) ↔ _
        rw [List.mem_cons, ih (n + 1) k]
        constructor
        · rintro (rfl | ⟨j, rfl, c', hc', hprop⟩)
          · exact ⟨0, by omega, c, by simp, hc.1, hc.2⟩
          · exact ⟨j + 1, by omega, c', by simpa using hc', hprop⟩
        · rintro ⟨j, rfl, c', hc', hprop⟩
          cases j with
          | zero => exact Or.inl (by omega)
          | succ j' => exact Or.inr ⟨j', by omega, c', by simpa using hc', hprop⟩
      · rw [if_neg hc]
        show k ∈ (get_collisions_go (n + 1) rest).filterMap (fun e => e.map (fun p => p.1)) ↔ _
        rw [ih (n + 1) k]
        constructor
        · rintro ⟨j, rfl, c', hc', hprop⟩
          exact ⟨j + 1, by omega, c', by simpa using hc', hprop⟩
        · rintro ⟨j, rfl, c', hc', hprop⟩
          cases j with
          | zero =>
              exfalso
              have hcc : some c = some c' := by simpa using hc'
              cases hcc
              exact hc ⟨hprop.1, hprop.2⟩
          | succ j' => exact ⟨j', by omega, c', by simpa using hc', hprop⟩

theorem mem_collision_indices (rects : List Cell) (k : Nat) :
    k ∈ collision_indices rects ↔
      ∃ c, rects[k]? = some c ∧ c.state = CellState.Enabled ∧ c.marked = true := by
  unfold collision_indices get_collisions
  rw [collisions_go_mem]
  constructor
  · rintro ⟨j, rfl, hj⟩
    simpa using hj
  · intro hk
    exact ⟨k, by omega, hk⟩

theorem nat_min?_spec (l : List Nat) (h : l ≠ []) :
    ∃ m, l.min? = some m ∧ m ∈ l ∧ ∀ j ∈ l, m ≤ j := by
  cases l with
  | nil => exact absurd rfl h
  | cons a as =>
      obtain ⟨m, hm⟩ : ∃ m, (a :: as).min? = some m := ⟨_, rfl⟩
      refine ⟨m, hm, List.min?_mem (fun x y => min_choice x y) hm, ?_⟩
      exact ((List.min?_eq_some_iff (fun x => le_refl x) (fun x y => min_choice x y)
        (fun x y z => le_min_iff)).mp hm).2

theorem nat_max?_spec (l : List Nat) (h : l ≠ []) :
    ∃ m, l.max? = some m ∧ m ∈ l ∧ ∀ j ∈ l, j ≤ m := by
  cases l with
  | nil => exact absurd rfl h
  | cons a as =>
      obtain ⟨m, hm⟩ : ∃ m, (a :: as).max? = some m := ⟨_, rfl⟩
      refine ⟨m, hm, List.max?_mem (fun x y => max_choice x y) hm, ?_⟩
      exact ((List.max?_eq_some_iff (fun x => le_refl x) (fun x y => max_choice x y)
        (fun x y z => max_le_iff)).mp hm).2

theorem choose_mem (k : Nat) (l : List Nat) (h : l ≠ []) :
    ∃ v, _choose k l = some v ∧ v ∈ l := by
  unfold _choose
  rw [if_neg (by simpa [List.isEmpty_iff] using h)]
  have hpos : 0 < l.length := List.length_pos.mpr h
  have hlt : k % l.length < l.length := Nat.mod_lt _ hpos
  exact ⟨l[k % l.length], List.getElem?_eq_getElem hlt, List.getElem_mem hlt⟩

theorem avg_between (l : List Nat) (h : l ≠ []) :
    ∃ lo ∈ l, ∃ hi ∈ l, lo ≤ l.sum / l.length ∧ l.sum / l.length ≤ hi := by
  obtain ⟨m, _, hmem, hmin⟩ := nat_min?_spec l h
  obtain ⟨M, _, hMem, hmax⟩ := nat_max?_spec l h
  have hpos : 0 < l.length := List.length_pos.mpr h
  refine ⟨m, hmem, M, hMem, ?_, ?_⟩
  · have hsum : l.length * m ≤ l.sum := by
      have := List.card_nsmul_le_sum l m hmin
      simpa [smul_eq_mul] using this
    exact (Nat.le_div_iff_mul_le hpos).mpr (by rwa [Nat.mul_comm l.length m] at hsum)
  · have hsum : l.sum ≤ l.length * M := by
      have := List.sum_le_card_nsmul l M hmax
      simpa [smul_eq_mul] using this
    calc l.sum / l.length ≤ (l.length * M) / l.length := Nat.div_le_div_right hsum
      _ = M := Nat.mul_div_cancel_left M hpos

theorem note_fn_eq (policy : NotePolicy) (indices : List Nat) (k : Nat) (field : List Cell) :
    note_fn policy indices k field =
      match _selected_index policy indices k with
      | some index => _note_on_at field index
      | none => (field, []) := by
  cases policy with
  | Min => rfl
  | Max => rfl
  | Avg =>
      show _note_with_avg_index indices field = _
      unfold _note_with_avg_index _selected_index
      by_cases h : indices.isEmpty = true
      · rw [if_pos h, if_pos h]
      · rw [if_neg h, if_neg h]
  | Random =>
      show _note_with_random_index k indices field = _
      unfold _note_with_random_index _selected_index
      rfl

/-- C5: edge-triggering, uniformly over all four policies: when the policy
selects `index` and the grid holds `cell` there, the emission body is a
no-op (no cell change, no message) when `cell.active` is already set;
otherwise it sets exactly that cell's `active` flag and sends exactly one
note-on whose arguments are the fixed channel, the position-derived note
`(x + y) mod 128`, and the fixed velocity `1.0`. -/
theorem emission_edge_trigger (policy : NotePolicy) (indices : List Nat) (k : Nat)
    (field : List Cell) (index : Nat) (cell : Cell)
    (hsel : _selected_index policy indices k = some index)
    (hcell : field[index]? = some cell) :
    note_fn policy indices k field =
      (if cell.active = true then (field, [])
       else (field.set index { cell with active := true }, [noteOn_msg index])) ∧
    noteOn_msg index = ("/midi/noteOn",
      [OscArg.int 0,
       OscArg.int ((((index : Int)).tmod 32 + ((index : Int)).tdiv 32).tmod 128),
       OscArg.float 1]) := by
  constructor
  · rw [note_fn_eq, hsel]
    show _note_on_at field index = _
    unfold _note_on_at
    rw [hcell]
  · rfl

/-- C5 witness: `Min` policy over the one-cell grid `[default_cell]` with
collision index 0: the inactive cell is activated and one note-on is sent. -/
theorem emission_edge_trigger_witness :
    note_fn NotePolicy.Min [0] 0 [default_cell] =
      (if default_cell.active = true then ([default_cell], [])
       else ([default_cell].set 0 { default_cell with active := true }, [noteOn_msg 0])) ∧
    noteOn_msg 0 = ("/midi/noteOn",
      [OscArg.int 0,
       OscArg.int ((((0 : Nat) : Int).tmod 32 + (((0 : Nat) : Int)).tdiv 32).tmod 128),
       OscArg.float 1]) :=
  emission_edge_trigger NotePolicy.Min [0] 0 [default_cell] 0 default_cell (by decide) (by simp)

/-- C4: over any non-empty index list, `Min` selects the smallest member,
`Max` the largest member, and `Avg` the truncating quotient
`sum / count`; over the empty collision set no policy selects anything and
every policy's emission body leaves the field unchanged and sends no
message. -/
theorem policy_selection_spec (indices : List Nat) (h : indices ≠ [])
    (field : List Cell) (k : Nat) :
    (∃ m, _selected_index NotePolicy.Min indices k = some m ∧ m ∈ indices ∧
      ∀ j ∈ indices, m ≤ j) ∧
    (∃ M, _selected_index NotePolicy.Max indices k = some M ∧ M ∈ indices ∧
      ∀ j ∈ indices, j ≤ M) ∧
    _selected_index NotePolicy.Avg indices k = some (indices.sum / indices.length) ∧
    (∀ policy, _selected_index policy ([] : List Nat) k = none) ∧
    (∀ policy, note_fn policy ([] : List Nat) k field = (field, [])) := by
  refine ⟨?_, ?_, ?_, ?_, ?_⟩
  · exact nat_min?_spec indices h
  · exact nat_max?_spec indices h
  · show (if indices.isEmpty = true then none else some (indices.sum / indices.length)) = _
    rw [if_neg (by simpa [List.isEmpty_iff] using h)]
  · intro policy
    cases policy <;> rfl
  · intro policy
    cases policy <;> rfl

/-- C4 witness: the theorem applied at the collision set {3, 7, 12}: Avg
selects (3 + 7 + 12) / 3 = 7; Min and Max select 3 and 12. -/
theorem policy_selection_spec_witness :
    _selected_index NotePolicy.Avg [3, 7, 12] 0 =
      some ([3, 7, 12].sum / ([3, 7, 12] : List Nat).length) ∧
    ([3, 7, 12] : List Nat).sum / ([3, 7, 12] : List Nat).length = 7 ∧
    _selected_index NotePolicy.Min [3, 7, 12] 0 = some 3 ∧
    _selected_index NotePolicy.Max [3, 7, 12] 0 = some 12 :=
  ⟨(policy_selection_spec [3, 7, 12] (by decide) [] 0).2.2.1, by decide, by decide, by decide⟩

/-- C3 counterexample grid: collisions (alive ∧ marked) exactly at flat
indices 0 and 10. -/
def cg3 : List Cell :=
  mkGrid (fun i =>
    if i = 0 ∨ i = 10 then { state := CellState.Enabled, marked := true, active := false }
    else default_cell)

set_option maxRecDepth 40000

/-- C3 counterexample: with collisions {0, 10}, the Avg policy selects index
(0 + 10) / 2 = 5, which is not a member of the collision set — so "the index
the emission pass selects is a member of the collision set" fails for Avg. -/
theorem avg_policy_counterexample :
    collision_indices cg3 = [0, 10] ∧
    _selected_index NotePolicy.Avg (collision_indices cg3) 0 = some 5 ∧
    (collision_indices cg3).contains 5 = false := by decide

/-- C3 (amended): when the collision set is non-empty, the Min, Max, and
Random policies select a member of the collision set; the Avg policy
selects the truncating mean of the collision indices, which lies between
the smallest and largest collision index (hence is a valid grid index) but
need not itself be a collision.  Membership in the collision-index list
means exactly that the grid cell at that flat index is alive and marked. -/
theorem selection_from_collisions (field : List Cell) (k : Nat)
    (h : collision_indices field ≠ []) :
    (∀ i, _selected_index NotePolicy.Min (collision_indices field) k = some i →
      i ∈ collision_indices field) ∧
    (∀ i, _selected_index NotePolicy.Max (collision_indices field) k = some i →
      i ∈ collision_indices field) ∧
    (∀ i, _selected_index NotePolicy.Random (collision_indices field) k = some i →
      i ∈ collision_indices field) ∧
    (∀ i, _selected_index NotePolicy.Avg (collision_indices field) k = some i →
      ∃ lo ∈ collision_indices field, ∃ hi ∈ collision_indices field, lo ≤ i ∧ i ≤ hi) ∧
    (∀ i, i ∈ collision_indices field ↔
      ∃ c, field[i]? = some c ∧ c.state = CellState.Enabled ∧ c.marked = true) := by
  refine ⟨?_, ?_, ?_, ?_, fun i => mem_collision_indices field i⟩
  · intro i hi
    exact List.min?_mem (fun x y => min_choice x y) hi
  · intro i hi
    exact List.max?_mem (fun x y => max_choice x y) hi
  · intro i hi
    obtain ⟨v, hv, hvm⟩ := choose_mem k (collision_indices field) h
    rw [show _selected_index NotePolicy.Random (collision_indices field) k =
      _choose k (collision_indices field) from rfl, hv] at hi
    cases hi
    exact hvm
  · intro i hi
    have havg : (if (collision_indices field).isEmpty = true then none
        else some ((collision_indices field).sum / (collision_indices field).length)) =
        some i := hi
    rw [if_neg (by simpa [List.isEmpty_iff] using h)] at havg
    cases havg
    exact avg_between (collision_indices field) h

/-- C3 witness: on the concrete grid `cg3` the Min policy's selected index 0
is a member of the collision set. -/
theorem selection_from_collisions_witness : 0 ∈ collision_indices cg3 :=
  (selection_from_collisions cg3 0 (by decide)).1 0 (by decide)

theorem stop_go_cons (n : Nat) (c : Cell) (rest : List Cell) :
    stop_go n (c :: rest) =
      if c.active = true then
        ({ c with active := false } :: (stop_go (n + 1) rest).1,
          noteOff_msg n :: (stop_go (n + 1) rest).2)
      else (c :: (stop_go (n + 1) rest).1, (stop_go (n + 1) rest).2) := rfl

theorem cell_clear_active_eta {c : Cell} (h : c.active = false) :
    { c with active := false } = c := by
  cases c
  dsimp only at h
  subst h
  rfl

theorem stop_fst (l : List Cell) : ∀ n : Nat,
    (stop_go n l).1 = l.map (fun c => { c with active := false }) := by
  induction l with
  | nil =>
      intro n
      rfl
  | cons c rest ih =>
      intro n
      rw [stop_go_cons, List.map_cons]
      by_cases hc : c.active = true
      · rw [if_pos hc]
        show { c with active := false } :: (stop_go (n + 1) rest).1 = _
        rw [ih (n + 1)]
      · rw [if_neg hc]
        show c :: (stop_go (n + 1) rest).1 = _
        rw [ih (n + 1)]
        rw [cell_clear_active_eta (by simpa using hc)]

theorem stop_snd (l : List Cell) : ∀ n : Nat,
    (stop_go n l).2 = (active_go n l).map noteOff_msg := by
  induction l with
  | nil =>
      intro n
      rfl
  | cons c rest ih =>
      intro n
      rw [stop_go_cons]
      unfold active_go
      by_cases hc : c.active = true
      · rw [if_pos hc, if_pos hc, List.map_cons]
        show noteOff_msg n :: (stop_go (n + 1) rest).2 = _
        rw [ih (n + 1)]
      · rw [if_neg hc, if_neg hc]
        show (stop_go (n + 1) rest).2 = _
        rw [ih (n + 1)]

theorem active_go_length (l : List Cell) : ∀ n : Nat,
    (active_go n l).length = l.countP (fun c => c.active) := by
  induction l with
  | nil =>
      intro n
      rfl
  | cons c rest ih =>
      intro n
      unfold active_go
      rw [List.countP_cons]
      by_cases hc : c.active = true
      · rw [if_pos hc, if_pos hc, List.length_cons, ih (n + 1)]
      · rw [if_neg hc, if_neg hc, ih (n + 1)]
        omega

theorem active_go_mem (l : List Cell) : ∀ n k : Nat,
    k ∈ active_go n l ↔ ∃ j : Nat, k = n + j ∧ ∃ c, l[j]? = some c ∧ c.active = true := by
  induction l with
  | nil =>
      intro n k
      simp [active_go]
  | cons c rest ih =>
      intro n k
      unfold active_go
      by_cases hc : c.active = true
      · rw [if_pos hc, List.mem_cons, ih (n + 1) k]
        constructor
        · rintro (rfl | ⟨j, rfl, c', hc', hca⟩)
          · exact ⟨0, by omega, c, by simp, hc⟩
          · exact ⟨j + 1, by omega, c', by simpa using hc', hca⟩
        · rintro ⟨j, rfl, c', hc', hca⟩
          cases j with
          | zero => exact Or.inl (by omega)
          | succ j' => exact Or.inr ⟨j', by omega, c', by simpa using hc', hca⟩
      · rw [if_neg hc, ih (n + 1) k]
        constructor
        · rintro ⟨j, rfl, c', hc', hca⟩
          exact ⟨j + 1, by omega, c', by simpa using hc', hca⟩
        · rintro ⟨j, rfl, c', hc', hca⟩
          cases j with
          | zero =>
              exfalso
              have hcc : some c = some c' := by simpa using hc'
              cases hcc
              exact hc hca
          | succ j' => exact ⟨j', by omega, c', by simpa using hc', hca⟩

theorem note_bounds (i : Nat) :
    0 ≤ _note_by_cell_index i ∧ _note_by_cell_index i < 128 := by
  have hrw : _note_by_cell_index i = ((i % 32 + i / 32 : Nat) : Int).tmod 128 := by
    show ((index_to_pos (i : Int)).1 + (index_to_pos (i : Int)).2).tmod 128 = _
    rw [show (index_to_pos ((i : Nat) : Int)).1 = ((i % 32 : Nat) : Int) from rfl,
        show (index_to_pos ((i : Nat) : Int)).2 = ((i / 32 : Nat) : Int) from rfl]
    congr 1
  rw [hrw, Int.tmod_eq_emod (by positivity) (by norm_num)]
  omega

/-- C6 (amended): the stop pass runs when the frame counter mod 10 is 9
(emission runs at 0): it clears the `active` flag of every active cell,
leaves inactive cells untouched, and sends exactly one note-off per
previously-active cell, in index order, with the note equal to the cell's
`(x + y) mod 128` (always in 0..127) on the fixed channel — but, contrary
to the claim's "no velocity field", each note-off message carries the same
three-argument payload as a note-on: channel, note, and the constant float
1.0. -/
theorem stop_pass_spec (field : List Cell) (frames : Nat) (policy : NotePolicy) (k : Nat)
    (h9 : frames % 10 = 9) :
    update_osc frames policy k field = stop field ∧
    (∀ frames2 : Nat, frames2 % 10 = 0 →
      update_osc frames2 policy k field = emit policy k field) ∧
    (stop field).1 = field.map (fun c => { c with active := false }) ∧
    (stop field).2 = (active_indices field).map noteOff_msg ∧
    (stop field).2.length = field.countP (fun c => c.active) ∧
    (∀ i : Nat, (i ∈ active_indices field ↔
        ∃ c, field[i]? = some c ∧ c.active = true) ∧
      noteOff_msg i = ("/midi/noteOff",
        [OscArg.int CHANNEL, OscArg.int (_note_by_cell_index i), OscArg.float 1]) ∧
      0 ≤ _note_by_cell_index i ∧ _note_by_cell_index i < 128) := by
  refine ⟨?_, ?_, stop_fst field 0, stop_snd field 0, ?_, ?_⟩
  · unfold update_osc
    rw [h9]
  · intro frames2 h0
    unfold update_osc
    rw [h0]
  · show (stop_go 0 field).2.length = _
    rw [stop_snd field 0, List.length_map]
    exact active_go_length field 0
  · intro i
    refine ⟨?_, rfl, note_bounds i⟩
    unfold active_indices
    rw [active_go_mem]
    constructor
    · rintro ⟨j, rfl, hj⟩
      simpa using hj
    · intro hk
      exact ⟨i, by omega, hk⟩

/-- C6 counterexample grid: exactly one cell (index 0) is active. -/
def cgA : List Cell :=
  mkGrid (fun i =>
    if i = 0 then { state := CellState.Disabled, marked := false, active := true }
    else default_cell)

/-- C6 counterexample: the single note-off the stop pass emits on `cgA`
carries three OSC arguments — channel, note, and a velocity-like float 1.0 —
not "exactly a channel and a note number (no velocity field)" as claimed. -/
theorem stop_noteoff_counterexample :
    (stop cgA).2 = [("/midi/noteOff", [OscArg.int 0, OscArg.int 0, OscArg.float 1])] ∧
    (stop cgA).2.map (fun msg => msg.2.length) = [3] := by decide

/-- C6 witness: the theorem applied at frame 9 on the concrete grid `cgA`:
the cadence dispatches the stop pass. -/
theorem stop_pass_spec_witness : update_osc 9 NotePolicy.Min 0 cgA = stop cgA :=
  (stop_pass_spec cgA 9 NotePolicy.Min 0 (by decide)).1

/-- C9 counterexample session state: `initialized` is set and the Life
simulation is selected. -/
def s9 : SessionState :=
  { field := [], initialized := true, simulation := Simulation.Life,
    note_policy := NotePolicy.Min }

/-- C9 counterexample: picking a different simulation (index 0 = Mover) from
the drop-down updates `simulation` but leaves `initialized` at `true` — the
handler body is only `model.simulation = SIMULATIONS[event]`, so no reseed
is forced, contrary to the claim that selection resets `initialized`. -/
theorem select_simulation_counterexample :
    (select_simulation s9 0).simulation = Simulation.Mover ∧
    (select_simulation s9 0).initialized = true ∧
    s9.initialized = true ∧ s9.simulation = Simulation.Life := by
  exact ⟨rfl, rfl, rfl, rfl⟩

/-- C9 (amended): selecting a simulation from the control surface changes
only the `simulation` field: the `initialized` flag and every cell flag
(the whole `field`) are left unchanged, so no reseed is forced by the
selection itself; the separate Restart control is what clears
`initialized`, likewise leaving the cells untouched. -/
theorem select_simulation_spec (s : SessionState) (event : Nat) :
    (select_simulation s event).initialized = s.initialized ∧
    (select_simulation s event).field = s.field ∧
    (select_simulation s event).note_policy = s.note_policy ∧
    (restart_click s).initialized = false ∧
    (restart_click s).field = s.field :=
  ⟨rfl, rfl, rfl, rfl, rfl⟩
